import Mathlib

/-!
Verification of the degraded-battery-OCV service.

The numerical core of the repository lives in `api/services/ocv_pristine.py`
and `api/services/ocv_degraded.py`.  We embed it shallowly:

* float values are modelled by `ℚ`; where the code can observe a non-finite
  float (NaN / ±inf) we use `Option ℚ`, with `none` standing for a non-finite
  value;
* the PCHIP interpolant of a half-cell table is an abstract function
  `ℚ → ℚ` (the code always builds it with `extrapolate=True`, so it is total);
* the scipy `fsolve` call is abstracted into an `FsolveOutcome` value
  (raised, or returned with the MINPACK status flag `ier` and a solution
  pair), since its numerics are outside the shallow embedding; everything
  the code does *around* that call — in particular the `int(ier) <= 0`
  guard — is embedded faithfully;
* the scipy `minimize` call of one multistart run is likewise abstracted into
  an `OptResult` value per start;
* numpy arrays become `List ℚ`, numpy boolean masks `List Bool`.
-/

namespace BatteryOcv

/-- `numpy.linspace a b num`: `num` evenly spaced samples from `a` to `b`
inclusive (a single sample is `a`, zero samples give the empty list). -/
def linspace (a b : ℚ) (num : ℕ) : List ℚ :=
  if num = 1 then [a]
  else (List.range num).map (fun i : ℕ => a + (b - a) * (i : ℚ) / ((num : ℚ) - 1))

/-- `numpy.diff`: consecutive differences of a list. -/
def diffs (xs : List ℚ) : List ℚ :=
  (List.range (xs.length - 1)).map (fun i => xs.getD (i + 1) 0 - xs.getD i 0)

/-- Embedding of `HalfCellCurve` (ocv_pristine.py).  `interp` is the
`PchipInterpolator` built with `extrapolate=True`, abstracted as a total
function; `sol_min` / `sol_max` are the table's domain endpoints. -/
structure HalfCellCurve where
  interp : ℚ → ℚ
  sol_min : ℚ
  sol_max : ℚ

/-- `HalfCellCurve.eval_ocv`: evaluate the interpolant on a batch of queries;
with `allow_extrapolation = false`, out-of-domain entries are masked to NaN
(modelled as `none`) instead of failing the batch. -/
def HalfCellCurve.eval_ocv (c : HalfCellCurve) (sol_query : List ℚ)
    (allow_extrapolation : Bool) : List (Option ℚ) :=
  sol_query.map (fun q =>
    if allow_extrapolation then some (c.interp q)
    else if c.sol_min ≤ q ∧ q ≤ c.sol_max then some (c.interp q) else none)

/-- Embedding of `PristineCell` (ocv_pristine.py).  The `endpoints` dict is
flattened into its four entries. -/
structure PristineCell where
  nmc : HalfCellCurve
  gra : HalfCellCurve
  sol_nmc_eoc : ℚ
  sol_nmc_eod : ℚ
  sol_gra_eoc : ℚ
  sol_gra_eod : ℚ
  x_grid : List ℚ
  ocv_nmc : List ℚ
  ocv_gra : List ℚ
  ocv_cell : List ℚ
  v_max : ℚ
  v_min : ℚ

/-- `PristineCell.sol_nmc_from_x`: affine map from normalized capacity to the
positive electrode's lithiation window. -/
def PristineCell.sol_nmc_from_x (p : PristineCell) (x : ℚ) : ℚ :=
  p.sol_nmc_eoc + x * (p.sol_nmc_eod - p.sol_nmc_eoc)

/-- `PristineCell.sol_gra_from_x`: affine map from normalized capacity to the
negative electrode's lithiation window. -/
def PristineCell.sol_gra_from_x (p : PristineCell) (x : ℚ) : ℚ :=
  p.sol_gra_eoc + x * (p.sol_gra_eod - p.sol_gra_eoc)

/-- `PristineCell.ocv_nmc_from_x` with `allow_extrapolation=True` (the only
mode used by the forward model): the interpolant after the affine map. -/
def PristineCell.ocv_nmc_from_x (p : PristineCell) (x : ℚ) : ℚ :=
  p.nmc.interp (p.sol_nmc_from_x x)

/-- `PristineCell.ocv_gra_from_x` with `allow_extrapolation=True`. -/
def PristineCell.ocv_gra_from_x (p : PristineCell) (x : ℚ) : ℚ :=
  p.gra.interp (p.sol_gra_from_x x)

/-- `build_pristine_cell_from_csv` (ocv_pristine.py) after CSV loading: the
grid construction.  `v_max` / `v_min` are the first / last grid cell OCV
(`ocv_cell_grid[0]`, `ocv_cell_grid[-1]`), with `headD` / `getLastD`
standing in for numpy's indexing. -/
def build_pristine_cell (nmc gra : HalfCellCurve)
    (sol_nmc_eoc sol_nmc_eod sol_gra_eoc sol_gra_eod : ℚ)
    (num_points : ℕ) : PristineCell :=
  let x_grid := linspace 0 1 num_points
  let sol_nmc_grid := x_grid.map (fun x => sol_nmc_eoc + x * (sol_nmc_eod - sol_nmc_eoc))
  let sol_gra_grid := x_grid.map (fun x => sol_gra_eoc + x * (sol_gra_eod - sol_gra_eoc))
  let ocv_nmc_grid := sol_nmc_grid.map nmc.interp
  let ocv_gra_grid := sol_gra_grid.map gra.interp
  let ocv_cell_grid := List.zipWith (fun a b => a - b) ocv_nmc_grid ocv_gra_grid
  { nmc := nmc
    gra := gra
    sol_nmc_eoc := sol_nmc_eoc
    sol_nmc_eod := sol_nmc_eod
    sol_gra_eoc := sol_gra_eoc
    sol_gra_eod := sol_gra_eod
    x_grid := x_grid
    ocv_nmc := ocv_nmc_grid
    ocv_gra := ocv_gra_grid
    ocv_cell := ocv_cell_grid
    v_max := ocv_cell_grid.headD 0
    v_min := ocv_cell_grid.getLastD 0 }

/-- Embedding of `DegradedOcvRaw` (ocv_degraded.py). -/
structure DegradedOcvRaw where
  lli : ℚ
  lam_pe : ℚ
  lam_ne : ℚ
  delta_x_eoc : ℚ
  delta_x_eod : ℚ
  x_cell_eoc : ℚ
  x_cell_eod : ℚ
  cell_capacity : ℚ
  x_pe_eoc : ℚ
  x_pe_eod : ℚ
  x_ne_eoc : ℚ
  x_ne_eod : ℚ
  capacity_norm : List ℚ
  ocv_cell : List ℚ
  deriving DecidableEq

/-- Outcome of the `scipy.optimize.fsolve` call in
`calculate_degraded_ocv_raw`, abstracted: the call may raise, or may return
a last iterate together with the MINPACK status flag `ier` (the code calls
with `full_output=True`).  scipy semantics: `ier = 1` means converged;
`ier` in {2, 3, 4, 5} are fsolve's non-convergence diagnostics (maxfev
exhausted, xtol too small, no progress); `ier <= 0` would signal improper
input, which this call path cannot produce.  A `none` solution component
models a non-finite float. -/
inductive FsolveOutcome where
  | raised
  | returned (ier : ℤ) (d1 d2 : Option ℚ)
  deriving DecidableEq

/-- The `equations` closure inside `calculate_degraded_ocv_raw`: the 2×2
boundary system whose root is the window shift `(delta_x_eoc, delta_x_eod)`.
All electrode evaluations allow extrapolation. -/
def equations (p : PristineCell) (lli lam_pe lam_ne : ℚ) (dx : ℚ × ℚ) : ℚ × ℚ :=
  (p.v_max - p.ocv_nmc_from_x (dx.1 / (1 - lam_pe))
      + p.ocv_gra_from_x ((dx.1 + lli - lam_ne) / (1 - lam_ne)),
    p.v_min - p.ocv_nmc_from_x ((dx.2 + 1 - lli) / (1 - lam_pe))
      + p.ocv_gra_from_x ((dx.2 + 1 - lam_ne) / (1 - lam_ne)))

/-- The success branch of `calculate_degraded_ocv_raw`: window bounds,
sampling grid, per-electrode positions by linear fraction, and the degraded
cell OCV (all electrode OCV evaluations with extrapolation allowed). -/
def mk_degraded_ocv_raw (p : PristineCell) (lli lam_pe lam_ne : ℚ)
    (num_points : ℕ) (delta_x_eoc delta_x_eod : ℚ) : DegradedOcvRaw :=
  let x_pe_eoc := delta_x_eoc / (1 - lam_pe)
  let x_pe_eod := (delta_x_eod + 1 - lli) / (1 - lam_pe)
  let x_ne_eoc := (delta_x_eoc + lli - lam_ne) / (1 - lam_ne)
  let x_ne_eod := (delta_x_eod + 1 - lam_ne) / (1 - lam_ne)
  let x_cell_eoc := delta_x_eoc
  let x_cell_eod := 1 - lli + delta_x_eod
  let capacity_norm := linspace x_cell_eoc x_cell_eod num_points
  let frac := capacity_norm.map (fun c => (c - x_cell_eoc) / (x_cell_eod - x_cell_eoc))
  let x_pe := frac.map (fun f => x_pe_eoc + f * (x_pe_eod - x_pe_eoc))
  let x_ne := frac.map (fun f => x_ne_eoc + f * (x_ne_eod - x_ne_eoc))
  let ocv_pe := x_pe.map p.ocv_nmc_from_x
  let ocv_ne := x_ne.map p.ocv_gra_from_x
  { lli := lli
    lam_pe := lam_pe
    lam_ne := lam_ne
    delta_x_eoc := delta_x_eoc
    delta_x_eod := delta_x_eod
    x_cell_eoc := x_cell_eoc
    x_cell_eod := x_cell_eod
    cell_capacity := x_cell_eod - x_cell_eoc
    x_pe_eoc := x_pe_eoc
    x_pe_eod := x_pe_eod
    x_ne_eoc := x_ne_eoc
    x_ne_eod := x_ne_eod
    capacity_norm := capacity_norm
    ocv_cell := List.zipWith (fun a b => a - b) ocv_pe ocv_ne }

/-- `calculate_degraded_ocv_raw` (ocv_degraded.py), with the `fsolve` call
abstracted into `solver`.  Returns `none` (the code's `None`) when
`1 - LAM <= 0` for either electrode, when the solve raised, when the guard
`int(ier) <= 0` at line 76 fires — note this guard does NOT catch scipy's
actual non-convergence codes `ier` in {2..5} — when a solution component is
non-finite (so a derived window bound is non-finite), or when the window
`x_cell_eod <= x_cell_eoc` collapses. -/
def calculate_degraded_ocv_raw (p : PristineCell) (lli lam_pe lam_ne : ℚ)
    (num_points : ℕ) (solver : FsolveOutcome) : Option DegradedOcvRaw :=
  if 1 - lam_pe ≤ 0 ∨ 1 - lam_ne ≤ 0 then none
  else
    match solver with
    | FsolveOutcome.raised => none
    | FsolveOutcome.returned ier d1 d2 =>
      if ier ≤ 0 then none
      else
        match d1, d2 with
        | some delta_x_eoc, some delta_x_eod =>
          if 1 - lli + delta_x_eod ≤ delta_x_eoc then none
          else some (mk_degraded_ocv_raw p lli lam_pe lam_ne num_points delta_x_eoc delta_x_eod)
        | _, _ => none

/-- Embedding of `MeasuredOcv` (ocv_degraded.py). -/
structure MeasuredOcv where
  capacity : List ℚ
  ocv : List ℚ
  deriving DecidableEq

/-- Sort key used when ordering measured pairs by capacity (`np.argsort` on
the capacity column, applied to both columns). -/
def capLE : ℚ × ℚ → ℚ × ℚ → Prop := fun a b => a.1 ≤ b.1

instance : DecidableRel capLE := fun a b => inferInstanceAs (Decidable (a.1 ≤ b.1))

instance : IsTotal (ℚ × ℚ) capLE := ⟨fun a b => le_total a.1 b.1⟩

instance : IsTrans (ℚ × ℚ) capLE := ⟨fun _ _ _ h1 h2 => le_trans h1 h2⟩

/-- The cleaning core of `load_measured_ocv_from_mat` (ocv_degraded.py),
after the MAT file has produced the two raw float columns (a `none` entry is
a non-finite float): length check, finite-mask filter, minimum-count check,
then sort by capacity carrying the ocv column along. -/
def load_measured_ocv_clean (cap ocv : List (Option ℚ)) : Except String MeasuredOcv :=
  if cap.length ≠ ocv.length then
    Except.error "capacity and ocv arrays must have the same length"
  else
    let pairs := (cap.zip ocv).filterMap (fun p =>
      match p with
      | (some c, some o) => some (c, o)
      | _ => none)
    if pairs.length < 3 then Except.error "Measured data must have at least 3 finite points"
    else
      let sorted := pairs.insertionSort capLE
      Except.ok { capacity := sorted.map Prod.fst, ocv := sorted.map Prod.snd }

/-- `_gradient_mask` (ocv_degraded.py): flat-region mask of a measured
series.  `1 / 10 ^ 12` is the code's `1e-12` epsilon. -/
def gradient_mask (capacity ocv : List ℚ) (gradient_limit : ℚ) : List Bool :=
  let soc_diff := (diffs (capacity.map (fun c => c * 100))).map (fun d => |d|)
  let ocv_diff := (diffs ocv).map (fun d => |d|)
  let denom := soc_diff.map (fun s => max (1 / 10 ^ 12) s)
  let grad := List.zipWith (fun o d => o / d) ocv_diff denom
  grad.map (fun g => decide (g < gradient_limit)) ++ [false]

/-- `scipy.interpolate.interp1d` with `kind='linear'`,
`fill_value='extrapolate'`, `assume_sorted=True`: piecewise-linear
interpolation on the knots, extrapolating with the first / last segment
outside them.  Fewer than 2 knots raises in scipy; callers guard that case,
so the fallback value is irrelevant. -/
def interp_linear (xs ys : List ℚ) (q : ℚ) : ℚ :=
  match xs, ys with
  | x1 :: x2 :: xr, y1 :: y2 :: yr =>
    if q ≤ x2 ∨ xr = [] then y1 + (q - x1) * (y2 - y1) / (x2 - x1)
    else interp_linear (x2 :: xr) (y2 :: yr) q
  | _, _ => 0

/-- The degradation-parameter triple (LLI, LAM_PE, LAM_NE). -/
abbrev Theta := ℚ × ℚ × ℚ

/-- Outcome of one `scipy.optimize.minimize` (SLSQP) call in the multistart
loop, abstracted: the call may raise, may return a result with `res.fun`
equal to `None`, or may return a candidate `res.x` together with `res.fun`
(`none` models a non-finite objective value). -/
inductive OptResult where
  | raised
  | noFun
  | ok (x : Theta) (fval : Option ℚ)
  deriving DecidableEq

/-- One iteration of the multistart loop's best-tracking state
`(best, starts_success)`: a raised start or a `None` / non-finite objective
value is skipped; a finite value is counted and replaces the incumbent when
strictly smaller (`fun < best_rmse`, with the incumbent starting at `inf`,
modelled by `none`). -/
def stepStart (acc : Option (Theta × ℚ) × ℕ) (r : OptResult) : Option (Theta × ℚ) × ℕ :=
  match r with
  | OptResult.raised => acc
  | OptResult.noFun => acc
  | OptResult.ok x fval =>
    match fval with
    | none => acc
    | some f =>
      match acc.1 with
      | none => (some (x, f), acc.2 + 1)
      | some (bx, bf) =>
        if f < bf then (some (x, f), acc.2 + 1) else (some (bx, bf), acc.2 + 1)

/-- Boolean-mask selection `xs[mask]` of numpy. -/
def mask_select (xs : List ℚ) (mask : List Bool) : List ℚ :=
  (xs.zip mask).filterMap (fun p => if p.2 then some p.1 else none)

/-- The fixed large penalty of the estimator's objective (`1e6`). -/
def penalty : ℝ := 1000000

/-- The `objective` closure of `estimate_diagnostics_multistart`
(ocv_degraded.py): solve the forward model at `theta` (the `fsolve` inside
abstracted by `root_solve`); an Invalid solve or a non-positive window gives
the penalty (a `ℚ`-valued `cell_capacity` is always finite, so the
`isfinite` half of that guard cannot fire here); fewer than 2 predicted
points gives the penalty (and makes the guarded `interp1d` raise
unreachable); otherwise the RMSE between the predicted curve linearly
interpolated at the measured capacities, restricted to the flat mask, and
the measured OCV there.  An empty masked selection makes `np.mean` return
NaN, failing the code's `isfinite(rmse)` check — hence the penalty. -/
noncomputable def objective (p : PristineCell) (num_points : ℕ)
    (cap ocv : List ℚ) (mask_flat : List Bool)
    (root_solve : Theta → FsolveOutcome) (theta : Theta) : ℝ :=
  match calculate_degraded_ocv_raw p theta.1 theta.2.1 theta.2.2 num_points (root_solve theta) with
  | none => penalty
  | some degraded =>
    if degraded.cell_capacity ≤ 0 then penalty
    else
      let pred_capacity := degraded.capacity_norm.map (fun c => c - degraded.x_cell_eoc)
      if pred_capacity.length < 2 then penalty
      else
        let pred_at_meas := cap.map (interp_linear pred_capacity degraded.ocv_cell)
        let err := List.zipWith (fun a b => a - b)
          (mask_select pred_at_meas mask_flat) (mask_select ocv mask_flat)
        if err.length = 0 then penalty
        else Real.sqrt (((err.map (fun e => e * e)).sum / (err.length : ℚ) : ℚ) : ℝ)

/-- Embedding of `DiagnosticsEstimate` (ocv_degraded.py); the `theta` dict
becomes the (LLI, LAM_PE, LAM_NE) triple. -/
structure DiagnosticsEstimate where
  theta : Theta
  rmse_v : ℚ
  mask_flat : List Bool
  predicted_ocv_at_measured : List ℚ
  starts_tried : ℕ
  starts_success : ℕ
  deriving DecidableEq

/-- `estimate_diagnostics_multistart` (ocv_degraded.py).  The seeded RNG's
start draws are abstracted by `rng_draws` (start index to draw), one local
SLSQP run by `optimizer` (start point to outcome), and the `fsolve` inside
the final forward re-solve by `root_solve`.  A best value produced by the
loop is a finite `ℚ`, so the code's `isfinite(best_rmse)` re-check cannot
fail here. -/
def estimate_diagnostics_multistart (p : PristineCell) (measured : MeasuredOcv)
    (num_points num_starts : ℕ) (gradient_limit : ℚ)
    (rng_draws : ℕ → Theta) (optimizer : Theta → OptResult)
    (root_solve : Theta → FsolveOutcome) : Option DiagnosticsEstimate :=
  let cap := measured.capacity
  let ocv := measured.ocv
  if cap.length < 3 then none
  else
    let mask_flat := gradient_mask cap ocv gradient_limit
    if ¬ mask_flat.any id then none
    else
      let starts := (List.range num_starts).map rng_draws
      let acc := starts.foldl (fun a s => stepStart a (optimizer s)) (none, 0)
      match acc.1 with
      | none => none
      | some (best_x, best_rmse) =>
        match calculate_degraded_ocv_raw p best_x.1 best_x.2.1 best_x.2.2
            num_points (root_solve best_x) with
        | none => none
        | some degraded_best =>
          let pred_capacity := degraded_best.capacity_norm.map
            (fun c => c - degraded_best.x_cell_eoc)
          let pred_at_meas := cap.map (interp_linear pred_capacity degraded_best.ocv_cell)
          some { theta := best_x
                 rmse_v := best_rmse
                 mask_flat := mask_flat
                 predicted_ocv_at_measured := pred_at_meas
                 starts_tried := num_starts
                 starts_success := acc.2 }

/-- The reason surfaced by the `diagnostics_estimate` endpoint (main.py)
when the estimator returns an absent result. -/
def diagnostics_estimate_reason (est : Option DiagnosticsEstimate) : Option String :=
  match est with
  | none => some "optimizer_failed_or_no_flat_region"
  | some _ => none

/-- Classifier of a successful multistart run with a finite objective value
(the runs counted by `starts_success`). -/
def isFiniteOk (r : OptResult) : Bool :=
  match r with
  | OptResult.ok _ (some _) => true
  | _ => false

deriving instance DecidableEq for Except

/-- A concrete positive-electrode half-cell curve for the witnesses. -/
def nmcTest : HalfCellCurve := { interp := fun q => 4 - q, sol_min := 0, sol_max := 1 }

/-- A concrete negative-electrode half-cell curve for the witnesses. -/
def graTest : HalfCellCurve := { interp := fun q => 1 - q, sol_min := 0, sol_max := 1 }

/-- A concrete pristine cell built from the two test curves on a 3-point
grid. -/
def pristineTest : PristineCell := build_pristine_cell nmcTest graTest 1 0 0 1 3

/-! Helper lemmas about the list combinators. -/

theorem linspace_length (a b : ℚ) (num : ℕ) : (linspace a b num).length = num := by
  unfold linspace
  by_cases h : num = 1
  · simp [h]
  · simp [h]

theorem linspace_getD (a b : ℚ) (num : ℕ) (i : ℕ) (hn : 2 ≤ num) (hi : i < num) :
    (linspace a b num).getD i 0 = a + (b - a) * i / ((num : ℚ) - 1) := by
  unfold linspace
  have h1 : num ≠ 1 := by omega
  rw [if_neg h1, List.getD_eq_getElem _ _ (by simpa using hi), List.getElem_map,
    List.getElem_range]

theorem diffs_length (xs : List ℚ) : (diffs xs).length = xs.length - 1 := by
  simp [diffs]

theorem diffs_getD (xs : List ℚ) (i : ℕ) (hi : i < xs.length - 1) :
    (diffs xs).getD i 0 = xs.getD (i + 1) 0 - xs.getD i 0 := by
  unfold diffs
  rw [List.getD_eq_getElem _ _ (by simpa using hi), List.getElem_map, List.getElem_range]

theorem getD_map_mul100 (capacity : List ℚ) (j : ℕ) (hj : j < capacity.length) :
    (capacity.map (fun c => c * 100)).getD j 0 = capacity.getD j 0 * 100 := by
  rw [List.getD_eq_getElem _ _ (by simpa using hj), List.getElem_map,
    List.getD_eq_getElem _ _ hj]

/-- The flat-region mask, written as an index map: entry `i < n - 1` compares
the finite-difference gradient against the limit, and a final `false` entry
is appended. -/
theorem gradient_mask_eq (capacity ocv : List ℚ) (gl : ℚ)
    (hlen : ocv.length = capacity.length) :
    gradient_mask capacity ocv gl =
      (List.range (capacity.length - 1)).map (fun i =>
        decide (|ocv.getD (i + 1) 0 - ocv.getD i 0| /
          max (1 / 10 ^ 12)
            (|capacity.getD (i + 1) 0 * 100 - capacity.getD i 0 * 100|) < gl))
      ++ [false] := by
  unfold gradient_mask diffs
  simp only [List.length_map, hlen, List.map_map, List.zipWith_map, List.zipWith_same]
  congr 1
  refine List.map_congr_left (fun i hi => ?_)
  rw [List.mem_range] at hi
  simp only [Function.comp_apply]
  rw [getD_map_mul100 capacity (i + 1) (by omega), getD_map_mul100 capacity i (by omega)]

theorem gradient_mask_length (capacity ocv : List ℚ) (gl : ℚ)
    (hlen : ocv.length = capacity.length) (h1 : 1 ≤ capacity.length) :
    (gradient_mask capacity ocv gl).length = capacity.length := by
  rw [gradient_mask_eq capacity ocv gl hlen]
  simp
  omega

theorem gradient_mask_getD (capacity ocv : List ℚ) (gl : ℚ) (i : ℕ)
    (hlen : ocv.length = capacity.length) (hi : i + 1 < capacity.length) :
    (gradient_mask capacity ocv gl).getD i false =
      decide (|ocv.getD (i + 1) 0 - ocv.getD i 0| /
        max (1 / 10 ^ 12)
          (|capacity.getD (i + 1) 0 * 100 - capacity.getD i 0 * 100|) < gl) := by
  rw [gradient_mask_eq capacity ocv gl hlen]
  have hlt : i < ((List.range (capacity.length - 1)).map (fun i =>
      decide (|ocv.getD (i + 1) 0 - ocv.getD i 0| /
        max (1 / 10 ^ 12)
          (|capacity.getD (i + 1) 0 * 100 - capacity.getD i 0 * 100|) < gl))).length := by
    simp; omega
  rw [List.getD_eq_getElem _ _ (by simp at hlt ⊢; omega), List.getElem_append_left hlt,
    List.getElem_map, List.getElem_range]

theorem gradient_mask_getD_last (capacity ocv : List ℚ) (gl : ℚ)
    (hlen : ocv.length = capacity.length) :
    (gradient_mask capacity ocv gl).getD (capacity.length - 1) false = false := by
  rw [gradient_mask_eq capacity ocv gl hlen]
  set L := (List.range (capacity.length - 1)).map (fun i =>
    decide (|ocv.getD (i + 1) 0 - ocv.getD i 0| /
      max (1 / 10 ^ 12)
        (|capacity.getD (i + 1) 0 * 100 - capacity.getD i 0 * 100|) < gl)) with hL
  have hLlen : L.length = capacity.length - 1 := by simp [hL]
  have hbound : capacity.length - 1 < (L ++ [false]).length := by
    simp only [List.length_append, hLlen, List.length_singleton]
    omega
  rw [List.getD_eq_getElem _ _ hbound, List.getElem_append_right (by omega)]
  simp [hLlen]

/-! Claim theorems. -/

/-- C1: the claim's non-convergence clause fails on the code.  scipy's
`fsolve` reports non-convergence with `ier` in {2, 3, 4, 5} (`ier = 1` is
success; `ier <= 0` only for improper input, impossible on this call path),
but the guard at ocv_degraded.py line 76 tests `int(ier) <= 0`.  So for
every non-convergence code `ier` in {2..5}, a returned finite iterate with
a non-collapsed window is accepted as a success: here, on the test cell at
theta = (0, 0, 0) with last iterate (0, 0), the solve returns a full
success record where the claim and the spec require Invalid. -/
theorem calculate_nonconverged_accepted (ier : ℤ) (h2 : 2 ≤ ier) (h5 : ier ≤ 5) :
    calculate_degraded_ocv_raw pristineTest 0 0 0 2
      (FsolveOutcome.returned ier (some 0) (some 0)) =
      some (mk_degraded_ocv_raw pristineTest 0 0 0 2 0 0) := by
  unfold calculate_degraded_ocv_raw
  rw [if_neg (by norm_num)]
  try dsimp only
  rw [if_neg (by omega)]
  try dsimp only
  rw [if_neg (by norm_num)]

/-- C1 witness: the `maxfev`-exhausted diagnostic `ier = 2`. -/
theorem calculate_nonconverged_accepted_witness :
    ((2 : ℤ) ≤ 2 ∧ (2 : ℤ) ≤ 5) ∧
    calculate_degraded_ocv_raw pristineTest 0 0 0 2
      (FsolveOutcome.returned 2 (some 0) (some 0)) =
      some (mk_degraded_ocv_raw pristineTest 0 0 0 2 0 0) :=
  ⟨⟨by decide, by decide⟩, calculate_nonconverged_accepted 2 (by decide) (by decide)⟩

/-- C5: for a measured series of `n >= 3` points, the flat-region mask has
length `n`; entry `i < n - 1` holds exactly when
`|ocv[i+1] - ocv[i]| / max(|100 * (capacity[i+1] - capacity[i])|, 1e-12)` is
below `gradient_limit`; and the last entry is always `false`. -/
theorem gradient_mask_spec (capacity ocv : List ℚ) (gradient_limit : ℚ) (n : ℕ)
    (hcap : capacity.length = n) (hocv : ocv.length = n) (hn : 3 ≤ n) :
    (gradient_mask capacity ocv gradient_limit).length = n ∧
    (∀ i, i < n - 1 →
      ((gradient_mask capacity ocv gradient_limit).getD i false = true ↔
        |ocv.getD (i + 1) 0 - ocv.getD i 0| /
          max (1 / 10 ^ 12) (|100 * (capacity.getD (i + 1) 0 - capacity.getD i 0)|)
          < gradient_limit)) ∧
    (gradient_mask capacity ocv gradient_limit).getD (n - 1) false = false := by
  subst hcap
  have hlen : ocv.length = capacity.length := hocv
  refine ⟨gradient_mask_length capacity ocv gradient_limit hlen (by omega), ?_, ?_⟩
  · intro i hi
    rw [gradient_mask_getD capacity ocv gradient_limit i hlen (by omega)]
    have harg : capacity.getD (i + 1) 0 * 100 - capacity.getD i 0 * 100 =
        100 * (capacity.getD (i + 1) 0 - capacity.getD i 0) := by ring
    rw [harg, decide_eq_true_iff]
  · exact gradient_mask_getD_last capacity ocv gradient_limit hlen

/-- C5 witness: the mask of a concrete 3-point series. -/
theorem gradient_mask_spec_witness :
    (([(0 : ℚ), 1/2, 1].length = 3 ∧ [(1 : ℚ), 2, 3].length = 3 ∧ 3 ≤ 3) ∧
      (gradient_mask [(0 : ℚ), 1/2, 1] [(1 : ℚ), 2, 3] 5).getD (3 - 1) false = false) :=
  ⟨⟨by decide, by decide, by decide⟩,
    (gradient_mask_spec [(0 : ℚ), 1/2, 1] [(1 : ℚ), 2, 3] 5 3
      (by decide) (by decide) (by decide)).2.2⟩

/-- C9: `HalfCellCurve.eval_ocv` with `allow_extrapolation = false` reports
NaN (`none`) exactly at the query positions outside `[sol_min, sol_max]`,
agrees with the `allow_extrapolation = true` result (the raw interpolant
value) at every in-domain position, and — being a total function — never
fails the batch for out-of-domain points. -/
theorem eval_ocv_extrapolation_mask (c : HalfCellCurve) (qs : List ℚ) (i : ℕ)
    (hi : i < qs.length) :
    (c.eval_ocv qs false).length = qs.length ∧
    ((c.eval_ocv qs false).getD i none = none ↔
      ¬ (c.sol_min ≤ qs.getD i 0 ∧ qs.getD i 0 ≤ c.sol_max)) ∧
    ((c.sol_min ≤ qs.getD i 0 ∧ qs.getD i 0 ≤ c.sol_max) →
      (c.eval_ocv qs false).getD i none = (c.eval_ocv qs true).getD i none) ∧
    (c.eval_ocv qs true).getD i none = some (c.interp (qs.getD i 0)) := by
  unfold HalfCellCurve.eval_ocv
  have hq : qs.getD i 0 = qs[i] := List.getD_eq_getElem qs 0 hi
  have hfalse : ((qs.map (fun q =>
      if (false : Bool) = true then some (c.interp q)
      else if c.sol_min ≤ q ∧ q ≤ c.sol_max then some (c.interp q) else none)).getD i none) =
      (if c.sol_min ≤ qs[i] ∧ qs[i] ≤ c.sol_max then some (c.interp qs[i]) else none) := by
    rw [List.getD_eq_getElem _ _ (by simpa using hi), List.getElem_map]
    simp
  have htrue : ((qs.map (fun q =>
      if (true : Bool) = true then some (c.interp q)
      else if c.sol_min ≤ q ∧ q ≤ c.sol_max then some (c.interp q) else none)).getD i none) =
      some (c.interp qs[i]) := by
    rw [List.getD_eq_getElem _ _ (by simpa using hi), List.getElem_map]
    simp
  rw [hq]
  refine ⟨by simp, ?_, ?_, htrue⟩
  · rw [hfalse]
    by_cases hdom : c.sol_min ≤ qs[i] ∧ qs[i] ≤ c.sol_max
    · simp [hdom]
    · simp [hdom]
  · intro hdom
    rw [hfalse, htrue, if_pos hdom]

/-- C9 witness: a concrete curve and query batch with the first query below
the domain. -/
theorem eval_ocv_extrapolation_mask_witness :
    ((0 : ℕ) < [(-1 : ℚ), 1/2, 2].length) ∧
    (({ interp := fun q => q + 1, sol_min := 0, sol_max := 1 :
        HalfCellCurve }.eval_ocv [(-1 : ℚ), 1/2, 2] true).getD 0 none =
      some (({ interp := fun q => q + 1, sol_min := 0, sol_max := 1 :
        HalfCellCurve }).interp ([(-1 : ℚ), 1/2, 2].getD 0 0))) :=
  ⟨by decide,
    (eval_ocv_extrapolation_mask
      { interp := fun q => q + 1, sol_min := 0, sol_max := 1 }
      [(-1 : ℚ), 1/2, 2] 0 (by decide)).2.2.2⟩

/-- C10: a measured series with fewer than 3 points makes
`estimate_diagnostics_multistart` return Absent (`none`), whatever the other
arguments — in particular independently of the start generator and the
optimizer, so no optimization start is consumed. -/
theorem estimate_short_series_none (p : PristineCell) (measured : MeasuredOcv)
    (num_points num_starts : ℕ) (gradient_limit : ℚ) (rng_draws : ℕ → Theta)
    (optimizer : Theta → OptResult) (root_solve : Theta → FsolveOutcome)
    (h : measured.capacity.length < 3) :
    estimate_diagnostics_multistart p measured num_points num_starts gradient_limit
      rng_draws optimizer root_solve = none := by
  unfold estimate_diagnostics_multistart
  simp [h]

/-- C10 witness: a 1-point measured series. -/
theorem estimate_short_series_none_witness :
    (MeasuredOcv.mk [(0 : ℚ)] [(1 : ℚ)]).capacity.length < 3 ∧
    estimate_diagnostics_multistart pristineTest (MeasuredOcv.mk [(0 : ℚ)] [(1 : ℚ)])
      101 7 (1/10) (fun _ => (0, 0, 0)) (fun _ => OptResult.raised)
      (fun _ => FsolveOutcome.raised) = none :=
  ⟨by decide,
    estimate_short_series_none pristineTest (MeasuredOcv.mk [(0 : ℚ)] [(1 : ℚ)])
      101 7 (1/10) (fun _ => (0, 0, 0)) (fun _ => OptResult.raised)
      (fun _ => FsolveOutcome.raised) (by decide)⟩

/-- C8 (amended): the cleaning core of `load_measured_ocv_from_mat` returns
a series whose capacity values are sorted ascending (duplicates are kept:
the code never deduplicates), are NaN-free by construction (only finite
pairs pass the mask), with at least 3 points and matching column lengths;
and it raises exactly when the raw columns differ in length or fewer than 3
finite pairs remain after cleaning. -/
theorem load_measured_ocv_clean_spec (cap ocv : List (Option ℚ)) :
    (∀ m, load_measured_ocv_clean cap ocv = Except.ok m →
      m.capacity.Sorted (fun a b => a ≤ b) ∧ 3 ≤ m.capacity.length ∧
        m.capacity.length = m.ocv.length) ∧
    ((∃ e, load_measured_ocv_clean cap ocv = Except.error e) ↔
      (cap.length ≠ ocv.length ∨
        ((cap.zip ocv).filterMap (fun p =>
          match p with
          | (some c, some o) => some (c, o)
          | _ => none)).length < 3)) := by
  unfold load_measured_ocv_clean
  by_cases hlen : cap.length ≠ ocv.length
  · rw [if_pos hlen]
    constructor
    · intro m hm
      exact absurd hm (by simp)
    · simp [hlen]
  · rw [if_neg hlen]
    set pairs := (cap.zip ocv).filterMap (fun p =>
      match p with
      | (some c, some o) => some (c, o)
      | _ => none) with hpairs
    by_cases hcount : pairs.length < 3
    · rw [if_pos hcount]
      constructor
      · intro m hm
        exact absurd hm (by simp)
      · simp [hlen, hcount]
    · rw [if_neg hcount]
      constructor
      · intro m hm
        have hm2 : m = MeasuredOcv.mk ((pairs.insertionSort capLE).map Prod.fst)
            ((pairs.insertionSort capLE).map Prod.snd) := by
          exact (Except.ok.injEq _ _).mp hm.symm |>.symm ▸ rfl
        subst hm2
        refine ⟨?_, ?_, by simp⟩
        · have hs : (pairs.insertionSort capLE).Sorted capLE :=
            List.sorted_insertionSort capLE pairs
          exact List.Pairwise.map Prod.fst (fun a b hab => hab) hs
        · have hperm := List.perm_insertionSort capLE pairs
          have : (pairs.insertionSort capLE).length = pairs.length := hperm.length_eq
          simp [this]
          omega
      · simp [hlen, hcount]

/-- C8 witness: a concrete clean three-point input accepted by the loader. -/
theorem load_measured_ocv_clean_spec_witness :
    load_measured_ocv_clean [some 2, some 0, some 1] [some 7, some 5, some 6] =
      Except.ok (MeasuredOcv.mk [0, 1, 2] [5, 6, 7]) ∧
    (MeasuredOcv.mk [(0 : ℚ), 1, 2] [(5 : ℚ), 6, 7]).capacity.Sorted (fun a b => a ≤ b) ∧
      3 ≤ (MeasuredOcv.mk [(0 : ℚ), 1, 2] [(5 : ℚ), 6, 7]).capacity.length ∧
      (MeasuredOcv.mk [(0 : ℚ), 1, 2] [(5 : ℚ), 6, 7]).capacity.length =
        (MeasuredOcv.mk [(0 : ℚ), 1, 2] [(5 : ℚ), 6, 7]).ocv.length :=
  ⟨by with_unfolding_all decide,
    (load_measured_ocv_clean_spec [some 2, some 0, some 1] [some 7, some 5, some 6]).1
      (MeasuredOcv.mk [0, 1, 2] [5, 6, 7]) (by with_unfolding_all decide)⟩

/-- C8 counterexample to the claim as stated: a duplicated capacity value
survives cleaning — the loader sorts but never deduplicates, so the
returned capacity list is not `Nodup`. -/
theorem load_measured_ocv_clean_not_dedup :
    load_measured_ocv_clean [some 1, some 1, some 2] [some 5, some 6, some 7] =
      Except.ok (MeasuredOcv.mk [1, 1, 2] [5, 6, 7]) ∧
    ¬ (MeasuredOcv.mk [(1 : ℚ), 1, 2] [(5 : ℚ), 6, 7]).capacity.Nodup := by
  constructor
  · with_unfolding_all decide
  · decide

/-- C6 (amended): a measured series (n ≥ 3, matching columns) whose
consecutive-point gradient everywhere exceeds `gradient_limit` flags no flat
point, so `estimate_diagnostics_multistart` returns Absent (`none`, never
throwing — the embedding is total), and the endpoint surfaces the combined
reason code `optimizer_failed_or_no_flat_region` (the code has no distinct
`no_flat_region` reason code). -/
theorem estimate_steep_series_absent (p : PristineCell) (measured : MeasuredOcv)
    (num_points num_starts : ℕ) (gradient_limit : ℚ) (rng_draws : ℕ → Theta)
    (optimizer : Theta → OptResult) (root_solve : Theta → FsolveOutcome)
    (hlen : measured.ocv.length = measured.capacity.length)
    (hn : 3 ≤ measured.capacity.length)
    (hsteep : ∀ i, i + 1 < measured.capacity.length →
      gradient_limit < |measured.ocv.getD (i + 1) 0 - measured.ocv.getD i 0| /
        max (1 / 10 ^ 12)
          (|100 * (measured.capacity.getD (i + 1) 0 - measured.capacity.getD i 0)|)) :
    estimate_diagnostics_multistart p measured num_points num_starts gradient_limit
      rng_draws optimizer root_solve = none ∧
    diagnostics_estimate_reason (estimate_diagnostics_multistart p measured num_points
      num_starts gradient_limit rng_draws optimizer root_solve) =
      some "optimizer_failed_or_no_flat_region" := by
  have hmask : (gradient_mask measured.capacity measured.ocv gradient_limit).any id
      = false := by
    rw [gradient_mask_eq measured.capacity measured.ocv gradient_limit hlen,
      List.any_eq_false]
    intro x hx
    rcases List.mem_append.mp hx with hx | hx
    · rcases List.mem_map.mp hx with ⟨j, hj, rfl⟩
      rw [List.mem_range] at hj
      have hj1 : j + 1 < measured.capacity.length := by omega
      have harg : measured.capacity.getD (j + 1) 0 * 100 -
          measured.capacity.getD j 0 * 100 =
          100 * (measured.capacity.getD (j + 1) 0 - measured.capacity.getD j 0) := by
        ring
      rw [harg]
      simp only [id, decide_eq_true_iff]
      exact not_lt_of_gt (hsteep j hj1)
    · rw [List.mem_singleton] at hx
      subst hx
      simp
  have h3 : ¬ (measured.capacity.length < 3) := by omega
  have hmain : estimate_diagnostics_multistart p measured num_points num_starts
      gradient_limit rng_draws optimizer root_solve = none := by
    unfold estimate_diagnostics_multistart
    simp [h3, hmask]
  exact ⟨hmain, by rw [hmain]; rfl⟩

/-- C6 witness: a concrete 3-point steep series. -/
theorem estimate_steep_series_absent_witness :
    ((MeasuredOcv.mk [(0 : ℚ), 1/2, 1] [(0 : ℚ), 50, 100]).ocv.length =
        (MeasuredOcv.mk [(0 : ℚ), 1/2, 1] [(0 : ℚ), 50, 100]).capacity.length ∧
      3 ≤ (MeasuredOcv.mk [(0 : ℚ), 1/2, 1] [(0 : ℚ), 50, 100]).capacity.length) ∧
    estimate_diagnostics_multistart pristineTest
      (MeasuredOcv.mk [(0 : ℚ), 1/2, 1] [(0 : ℚ), 50, 100]) 101 2 (1/2)
      (fun _ => (0, 0, 0)) (fun _ => OptResult.raised)
      (fun _ => FsolveOutcome.raised) = none :=
  ⟨⟨by decide, by decide⟩,
    (estimate_steep_series_absent pristineTest
      (MeasuredOcv.mk [(0 : ℚ), 1/2, 1] [(0 : ℚ), 50, 100]) 101 2 (1/2)
      (fun _ => (0, 0, 0)) (fun _ => OptResult.raised)
      (fun _ => FsolveOutcome.raised) (by decide) (by decide)
      (by intro i hi
          have h2 : i < 2 := by simp at hi; omega
          interval_cases i
          · with_unfolding_all decide
          · with_unfolding_all decide)).1⟩

/-- C6 counterexample to the claim as stated: on a steep series the endpoint
reason is the combined code, not the claimed `no_flat_region`. -/
theorem estimate_steep_series_reason_cex :
    diagnostics_estimate_reason (estimate_diagnostics_multistart pristineTest
      (MeasuredOcv.mk [(0 : ℚ), 1, 2] [(0 : ℚ), 100, 200]) 101 1 (1/2)
      (fun _ => (0, 0, 0)) (fun _ => OptResult.raised)
      (fun _ => FsolveOutcome.raised)) = some "optimizer_failed_or_no_flat_region" ∧
    ("optimizer_failed_or_no_flat_region" : String) ≠ "no_flat_region" := by
  constructor
  · with_unfolding_all decide
  · decide

/-- Inversion of a successful `calculate_degraded_ocv_raw` call: the guards
passed and the result is the success-branch record. -/
theorem calculate_eq_some_elim (p : PristineCell) (lli lam_pe lam_ne : ℚ)
    (num_points : ℕ) (solver : FsolveOutcome) (r : DegradedOcvRaw)
    (h : calculate_degraded_ocv_raw p lli lam_pe lam_ne num_points solver = some r) :
    ∃ ier d1 d2, solver = FsolveOutcome.returned ier (some d1) (some d2) ∧
      0 < ier ∧ 0 < 1 - lam_pe ∧ 0 < 1 - lam_ne ∧ d1 < 1 - lli + d2 ∧
      r = mk_degraded_ocv_raw p lli lam_pe lam_ne num_points d1 d2 := by
  unfold calculate_degraded_ocv_raw at h
  by_cases hg : 1 - lam_pe ≤ 0 ∨ 1 - lam_ne ≤ 0
  · rw [if_pos hg] at h
    exact absurd h (by simp)
  · rw [if_neg hg] at h
    push_neg at hg
    rcases solver with _ | ⟨ier, d1, d2⟩
    · exact absurd h (by simp)
    · dsimp only at h
      by_cases hier : ier ≤ 0
      · rw [if_pos hier] at h
        exact absurd h (by simp)
      rw [if_neg hier] at h
      rcases d1 with _ | dx1 <;> rcases d2 with _ | dx2
      · exact absurd h (by simp)
      · exact absurd h (by simp)
      · exact absurd h (by simp)
      · dsimp only at h
        by_cases hw : 1 - lli + dx2 ≤ dx1
        · rw [if_pos hw] at h
          exact absurd h (by simp)
        · rw [if_neg hw] at h
          exact ⟨ier, dx1, dx2, rfl, not_le.mp hier, hg.1, hg.2, not_le.mp hw,
            (Option.some.inj h).symm⟩

theorem mk_capacity_norm (p : PristineCell) (lli lam_pe lam_ne : ℚ)
    (num_points : ℕ) (d1 d2 : ℚ) :
    (mk_degraded_ocv_raw p lli lam_pe lam_ne num_points d1 d2).capacity_norm =
      linspace d1 (1 - lli + d2) num_points := rfl

theorem mk_ocv_cell_map (p : PristineCell) (lli lam_pe lam_ne : ℚ)
    (num_points : ℕ) (d1 d2 : ℚ) :
    (mk_degraded_ocv_raw p lli lam_pe lam_ne num_points d1 d2).ocv_cell =
      (linspace d1 (1 - lli + d2) num_points).map (fun c =>
        p.ocv_nmc_from_x (d1 / (1 - lam_pe) +
          (c - d1) / (1 - lli + d2 - d1) *
            ((d2 + 1 - lli) / (1 - lam_pe) - d1 / (1 - lam_pe))) -
        p.ocv_gra_from_x ((d1 + lli - lam_ne) / (1 - lam_ne) +
          (c - d1) / (1 - lli + d2 - d1) *
            ((d2 + 1 - lam_ne) / (1 - lam_ne) - (d1 + lli - lam_ne) / (1 - lam_ne)))) := by
  simp only [mk_degraded_ocv_raw, List.map_map, List.zipWith_map, List.zipWith_same]
  rfl

/-- C2: every successful `calculate_degraded_ocv_raw` result samples
`capacity_norm` as `num_points` uniformly spaced values from `x_cell_eoc` to
`x_cell_eod` (with `cell_capacity = x_cell_eod - x_cell_eoc > 0`), maps each
sample's fractional position linearly into each electrode's window
`[x_pe_eoc, x_pe_eod]` resp. `[x_ne_eoc, x_ne_eod]`, evaluates each
electrode OCV through the extrapolating interpolant (`interp` after the
`sol` affine map, i.e. extrapolation allowed), and takes
`ocv_cell = ocv_pe - ocv_ne` pointwise. -/
theorem calculate_success_curve (p : PristineCell) (lli lam_pe lam_ne : ℚ)
    (num_points : ℕ) (solver : FsolveOutcome) (r : DegradedOcvRaw)
    (hn : 2 ≤ num_points)
    (h : calculate_degraded_ocv_raw p lli lam_pe lam_ne num_points solver = some r) :
    r.cell_capacity = r.x_cell_eod - r.x_cell_eoc ∧
    0 < r.cell_capacity ∧
    r.capacity_norm.length = num_points ∧
    (∀ i, i < num_points →
      r.capacity_norm.getD i 0 =
        r.x_cell_eoc + (r.x_cell_eod - r.x_cell_eoc) * i / ((num_points : ℚ) - 1)) ∧
    r.ocv_cell.length = num_points ∧
    (∀ i, i < num_points →
      r.ocv_cell.getD i 0 =
        p.nmc.interp (p.sol_nmc_from_x (r.x_pe_eoc +
          (r.capacity_norm.getD i 0 - r.x_cell_eoc) / (r.x_cell_eod - r.x_cell_eoc) *
            (r.x_pe_eod - r.x_pe_eoc))) -
        p.gra.interp (p.sol_gra_from_x (r.x_ne_eoc +
          (r.capacity_norm.getD i 0 - r.x_cell_eoc) / (r.x_cell_eod - r.x_cell_eoc) *
            (r.x_ne_eod - r.x_ne_eoc)))) := by
  obtain ⟨ier, d1, d2, hs, hier, hpe, hne, hw, hr⟩ :=
    calculate_eq_some_elim p lli lam_pe lam_ne num_points solver r h
  subst hr
  refine ⟨rfl, ?_, ?_, ?_, ?_, ?_⟩
  · show (0 : ℚ) < 1 - lli + d2 - d1
    linarith
  · rw [mk_capacity_norm, linspace_length]
  · intro i hi
    rw [mk_capacity_norm, linspace_getD d1 (1 - lli + d2) num_points i hn hi]
    rfl
  · rw [mk_ocv_cell_map, List.length_map, linspace_length]
  · intro i hi
    have hlen : i < ((linspace d1 (1 - lli + d2) num_points).map (fun c =>
        p.ocv_nmc_from_x (d1 / (1 - lam_pe) +
          (c - d1) / (1 - lli + d2 - d1) *
            ((d2 + 1 - lli) / (1 - lam_pe) - d1 / (1 - lam_pe))) -
        p.ocv_gra_from_x ((d1 + lli - lam_ne) / (1 - lam_ne) +
          (c - d1) / (1 - lli + d2 - d1) *
            ((d2 + 1 - lam_ne) / (1 - lam_ne) -
              (d1 + lli - lam_ne) / (1 - lam_ne))))).length := by
      rw [List.length_map, linspace_length]
      exact hi
    rw [mk_ocv_cell_map, mk_capacity_norm,
      List.getD_eq_getElem _ _ hlen, List.getElem_map,
      List.getD_eq_getElem _ _ (by rw [linspace_length]; exact hi)]
    rfl

/-- C2 witness: a concrete successful solve on the test cell. -/
theorem calculate_success_curve_witness :
    (2 ≤ 2 ∧
      calculate_degraded_ocv_raw pristineTest (1/10) (1/5) (1/5) 2
        (FsolveOutcome.returned 1 (some 0) (some 0)) =
        some (mk_degraded_ocv_raw pristineTest (1/10) (1/5) (1/5) 2 0 0)) ∧
    (mk_degraded_ocv_raw pristineTest (1/10) (1/5) (1/5) 2 0 0).cell_capacity =
      (mk_degraded_ocv_raw pristineTest (1/10) (1/5) (1/5) 2 0 0).x_cell_eod -
        (mk_degraded_ocv_raw pristineTest (1/10) (1/5) (1/5) 2 0 0).x_cell_eoc ∧
    0 < (mk_degraded_ocv_raw pristineTest (1/10) (1/5) (1/5) 2 0 0).cell_capacity :=
  ⟨⟨by decide, by with_unfolding_all decide⟩,
    ((calculate_success_curve pristineTest (1/10) (1/5) (1/5) 2
      (FsolveOutcome.returned 1 (some 0) (some 0))
      (mk_degraded_ocv_raw pristineTest (1/10) (1/5) (1/5) 2 0 0)
      (by decide) (by with_unfolding_all decide)).1 : _),
    (calculate_success_curve pristineTest (1/10) (1/5) (1/5) 2
      (FsolveOutcome.returned 1 (some 0) (some 0))
      (mk_degraded_ocv_raw pristineTest (1/10) (1/5) (1/5) 2 0 0)
      (by decide) (by with_unfolding_all decide)).2.1⟩

theorem headD_eq_getD (l : List ℚ) (d : ℚ) : l.headD d = l.getD 0 d := by
  cases l <;> rfl

theorem getLastD_eq_getD (l : List ℚ) (d : ℚ) :
    l.getLastD d = l.getD (l.length - 1) d := by
  cases l with
  | nil => rfl
  | cons a t =>
    rw [List.getLastD_eq_getLast?, List.getLast?_eq_getLast (a :: t) (by simp),
      Option.getD_some, List.getLast_eq_getElem,
      List.getD_eq_getElem _ _ (by simp)]

theorem build_ocv_cell_map (nmc gra : HalfCellCurve) (e1 e2 e3 e4 : ℚ) (n : ℕ) :
    (build_pristine_cell nmc gra e1 e2 e3 e4 n).ocv_cell =
      (linspace 0 1 n).map (fun x =>
        nmc.interp (e1 + x * (e2 - e1)) - gra.interp (e3 + x * (e4 - e3))) := by
  simp only [build_pristine_cell, List.map_map, List.zipWith_map, List.zipWith_same]
  rfl

theorem build_v_max_eq (nmc gra : HalfCellCurve) (e1 e2 e3 e4 : ℚ) (n : ℕ) :
    (build_pristine_cell nmc gra e1 e2 e3 e4 n).v_max =
      (build_pristine_cell nmc gra e1 e2 e3 e4 n).ocv_cell.getD 0 0 := by
  rw [← headD_eq_getD]
  rfl

theorem build_v_min_eq (nmc gra : HalfCellCurve) (e1 e2 e3 e4 : ℚ) (n : ℕ) :
    (build_pristine_cell nmc gra e1 e2 e3 e4 n).v_min =
      (build_pristine_cell nmc gra e1 e2 e3 e4 n).ocv_cell.getD
        ((build_pristine_cell nmc gra e1 e2 e3 e4 n).ocv_cell.length - 1) 0 := by
  rw [← getLastD_eq_getD]
  rfl

/-- C3: on a pristine cell, theta = (0, 0, 0) with the root solve returning
the start point (0, 0) with success status (`ier = 1`) — and this theorem
shows (0, 0) is an exact root of the boundary system — yields delta_x_eoc = delta_x_eod = 0, the window
`[x_cell_eoc, x_cell_eod] = [0, 1]`, and a sampled degraded curve equal to
the pristine cell curve (hence within 1e-6 V at every sample point). -/
theorem pristine_theta_zero (nmc gra : HalfCellCurve) (e1 e2 e3 e4 : ℚ)
    (n : ℕ) (hn : 2 ≤ n) :
    equations (build_pristine_cell nmc gra e1 e2 e3 e4 n) 0 0 0 (0, 0) = (0, 0) ∧
    ∃ r, calculate_degraded_ocv_raw (build_pristine_cell nmc gra e1 e2 e3 e4 n)
        0 0 0 n (FsolveOutcome.returned 1 (some 0) (some 0)) = some r ∧
      r.delta_x_eoc = 0 ∧ r.delta_x_eod = 0 ∧
      r.x_cell_eoc = 0 ∧ r.x_cell_eod = 1 ∧
      r.ocv_cell = (build_pristine_cell nmc gra e1 e2 e3 e4 n).ocv_cell ∧
      (∀ i, |r.ocv_cell.getD i 0 -
        (build_pristine_cell nmc gra e1 e2 e3 e4 n).ocv_cell.getD i 0| ≤ 1 / 10 ^ 6) := by
  have hcast : ((n : ℚ) - 1) ≠ 0 := by
    have h2 : (2 : ℚ) ≤ (n : ℚ) := by exact_mod_cast hn
    linarith
  have hlen : (build_pristine_cell nmc gra e1 e2 e3 e4 n).ocv_cell.length = n := by
    rw [build_ocv_cell_map, List.length_map, linspace_length]
  have hget0 : (build_pristine_cell nmc gra e1 e2 e3 e4 n).ocv_cell.getD 0 0 =
      nmc.interp e1 - gra.interp e3 := by
    rw [build_ocv_cell_map,
      List.getD_eq_getElem _ _ (by rw [List.length_map, linspace_length]; omega),
      List.getElem_map, ← List.getD_eq_getElem _ 0 (by rw [linspace_length]; omega),
      linspace_getD 0 1 n 0 hn (by omega)]
    norm_num
  have hgetlast : (build_pristine_cell nmc gra e1 e2 e3 e4 n).ocv_cell.getD (n - 1) 0 =
      nmc.interp e2 - gra.interp e4 := by
    rw [build_ocv_cell_map,
      List.getD_eq_getElem _ _ (by rw [List.length_map, linspace_length]; omega),
      List.getElem_map, ← List.getD_eq_getElem _ 0 (by rw [linspace_length]; omega),
      linspace_getD 0 1 n (n - 1) hn (by omega)]
    have hc : ((n - 1 : ℕ) : ℚ) = (n : ℚ) - 1 := by
      push_cast [Nat.cast_sub (by omega : 1 ≤ n)]
      ring
    have hX : (0 : ℚ) + (1 - 0) * ((n - 1 : ℕ) : ℚ) / ((n : ℚ) - 1) = 1 := by
      rw [hc]
      field_simp
    rw [hX]
    congr 1
    · congr 1
      ring
    · congr 1
      ring
  have hget0v : (build_pristine_cell nmc gra e1 e2 e3 e4 n).ocv_cell.getD 0 0 =
      nmc.interp e1 - gra.interp e3 := hget0
  have hn1 : (build_pristine_cell nmc gra e1 e2 e3 e4 n).nmc = nmc := rfl
  have hn2 : (build_pristine_cell nmc gra e1 e2 e3 e4 n).gra = gra := rfl
  have hs1 : ∀ x : ℚ, (build_pristine_cell nmc gra e1 e2 e3 e4 n).sol_nmc_from_x x =
      e1 + x * (e2 - e1) := fun _ => rfl
  have hs2 : ∀ x : ℚ, (build_pristine_cell nmc gra e1 e2 e3 e4 n).sol_gra_from_x x =
      e3 + x * (e4 - e3) := fun _ => rfl
  have heq1 : equations (build_pristine_cell nmc gra e1 e2 e3 e4 n) 0 0 0 (0, 0) =
      (0, 0) := by
    unfold equations PristineCell.ocv_nmc_from_x PristineCell.ocv_gra_from_x
    dsimp only
    rw [build_v_max_eq, build_v_min_eq, hlen, hget0, hgetlast]
    simp only [hs1, hs2, hn1, hn2]
    have hA : e1 + 0 / (1 - 0) * (e2 - e1) = e1 := by ring
    have hB : e3 + (0 + 0 - 0) / (1 - 0) * (e4 - e3) = e3 := by ring
    have hC : e1 + (0 + 1 - 0) / (1 - 0) * (e2 - e1) = e2 := by ring
    have hD : e3 + (0 + 1 - 0) / (1 - 0) * (e4 - e3) = e4 := by ring
    rw [hA, hB, hC, hD]
    simp only [Prod.mk.injEq]
    constructor <;> ring
  have hcal : calculate_degraded_ocv_raw (build_pristine_cell nmc gra e1 e2 e3 e4 n)
      0 0 0 n (FsolveOutcome.returned 1 (some 0) (some 0)) =
      some (mk_degraded_ocv_raw (build_pristine_cell nmc gra e1 e2 e3 e4 n) 0 0 0 n 0 0) := by
    unfold calculate_degraded_ocv_raw
    rw [if_neg (by norm_num)]
    try dsimp only
    rw [if_neg (by norm_num : ¬ (1 : ℤ) ≤ 0)]
    try dsimp only
    rw [if_neg (by norm_num)]
  have hocv : (mk_degraded_ocv_raw (build_pristine_cell nmc gra e1 e2 e3 e4 n)
      0 0 0 n 0 0).ocv_cell = (build_pristine_cell nmc gra e1 e2 e3 e4 n).ocv_cell := by
    rw [mk_ocv_cell_map, build_ocv_cell_map]
    have h1 : (1 : ℚ) - 0 + 0 = 1 := by norm_num
    rw [h1]
    refine List.map_congr_left (fun c hc => ?_)
    unfold PristineCell.ocv_nmc_from_x PristineCell.ocv_gra_from_x
    simp only [hs1, hs2, hn1, hn2]
    congr 1
    · congr 1
      ring
    · congr 1
      ring
  refine ⟨heq1, mk_degraded_ocv_raw (build_pristine_cell nmc gra e1 e2 e3 e4 n) 0 0 0 n 0 0,
    hcal, rfl, rfl, rfl, ?_, hocv, ?_⟩
  · show (1 : ℚ) - 0 + 0 = 1
    norm_num
  · intro i
    rw [hocv, sub_self, abs_zero]
    norm_num

/-- C3 witness: the concrete test cell at theta = (0, 0, 0). -/
theorem pristine_theta_zero_witness :
    2 ≤ 3 ∧
    equations (build_pristine_cell nmcTest graTest 1 0 0 1 3) 0 0 0 (0, 0) = (0, 0) :=
  ⟨by decide, (pristine_theta_zero nmcTest graTest 1 0 0 1 3 (by decide)).1⟩

/-- C4: for every theta (with at least 2 sample points, as the endpoint
guarantees), the estimator's objective returns the fixed large penalty when
the degradation solve is Invalid; a successful solve always has a positive
window (so the non-positive-window guard never fires on its own); the
penalty is also returned when the flat mask selects no measured point — the
embedding's image of a non-finite RMSE, since `np.mean` of an empty slice
is NaN and fails the `isfinite` check; otherwise the objective is exactly
the RMSE between the predicted curve linearly interpolated (extrapolation
allowed) at the measured capacities restricted to the flat mask and the
measured OCV there. -/
theorem objective_spec (p : PristineCell) (num_points : ℕ) (cap ocv : List ℚ)
    (mask_flat : List Bool) (root_solve : Theta → FsolveOutcome) (theta : Theta)
    (hn : 2 ≤ num_points) :
    (calculate_degraded_ocv_raw p theta.1 theta.2.1 theta.2.2 num_points
        (root_solve theta) = none →
      objective p num_points cap ocv mask_flat root_solve theta = penalty) ∧
    (∀ d, calculate_degraded_ocv_raw p theta.1 theta.2.1 theta.2.2 num_points
        (root_solve theta) = some d →
      0 < d.cell_capacity ∧
      ((List.zipWith (fun a b => a - b)
          (mask_select (cap.map (interp_linear
            (d.capacity_norm.map (fun c => c - d.x_cell_eoc)) d.ocv_cell)) mask_flat)
          (mask_select ocv mask_flat)).length = 0 →
        objective p num_points cap ocv mask_flat root_solve theta = penalty) ∧
      (0 < (List.zipWith (fun a b => a - b)
          (mask_select (cap.map (interp_linear
            (d.capacity_norm.map (fun c => c - d.x_cell_eoc)) d.ocv_cell)) mask_flat)
          (mask_select ocv mask_flat)).length →
        objective p num_points cap ocv mask_flat root_solve theta =
          Real.sqrt ((((List.zipWith (fun a b => a - b)
            (mask_select (cap.map (interp_linear
              (d.capacity_norm.map (fun c => c - d.x_cell_eoc)) d.ocv_cell)) mask_flat)
            (mask_select ocv mask_flat)).map (fun e => e * e)).sum /
              ((List.zipWith (fun a b => a - b)
                (mask_select (cap.map (interp_linear
                  (d.capacity_norm.map (fun c => c - d.x_cell_eoc)) d.ocv_cell)) mask_flat)
                (mask_select ocv mask_flat)).length : ℚ) : ℚ) : ℝ))) := by
  constructor
  · intro hnone
    unfold objective
    rw [hnone]
  · intro d hd
    obtain ⟨ier, d1, d2, hs, hier, hpe, hne2, hw, hr⟩ :=
      calculate_eq_some_elim p theta.1 theta.2.1 theta.2.2 num_points
        (root_solve theta) d hd
    have hcap : 0 < d.cell_capacity := by
      subst hr
      show (0 : ℚ) < 1 - theta.1 + d2 - d1
      linarith
    have hplen : ¬ ((d.capacity_norm.map (fun c => c - d.x_cell_eoc)).length < 2) := by
      subst hr
      rw [List.length_map, mk_capacity_norm, linspace_length]
      omega
    refine ⟨hcap, ?_, ?_⟩
    · intro hzero
      unfold objective
      rw [hd]
      dsimp only
      rw [if_neg (not_le.mpr hcap), if_neg hplen, if_pos hzero]
    · intro hpos
      unfold objective
      rw [hd]
      dsimp only
      rw [if_neg (not_le.mpr hcap), if_neg hplen, if_neg (by omega)]

/-- C4 witness: the success branch on the concrete test cell. -/
theorem objective_spec_witness :
    2 ≤ 2 ∧
    0 < (mk_degraded_ocv_raw pristineTest (1/10) (1/5) (1/5) 2 0 0).cell_capacity :=
  ⟨by decide,
    ((objective_spec pristineTest 2 [0, 1/2, 1] [3, 3, 3] [true, true, false]
      (fun _ => FsolveOutcome.returned 1 (some 0) (some 0)) (1/10, 1/5, 1/5)
      (by decide)).2
      (mk_degraded_ocv_raw pristineTest (1/10) (1/5) (1/5) 2 0 0)
      (by with_unfolding_all decide)).1⟩
theorem stepStart_raised (acc : Option (Theta × ℚ) × ℕ) :
    stepStart acc OptResult.raised = acc := rfl

theorem stepStart_noFun (acc : Option (Theta × ℚ) × ℕ) :
    stepStart acc OptResult.noFun = acc := rfl

theorem stepStart_ok_nonfinite (acc : Option (Theta × ℚ) × ℕ) (y : Theta) :
    stepStart acc (OptResult.ok y none) = acc := rfl

theorem stepStart_ok_fresh (acc : Option (Theta × ℚ) × ℕ) (y : Theta) (f0 : ℚ)
    (h : acc.1 = none) :
    stepStart acc (OptResult.ok y (some f0)) = (some (y, f0), acc.2 + 1) := by
  unfold stepStart
  rw [h]

theorem stepStart_ok_incumbent (acc : Option (Theta × ℚ) × ℕ) (y : Theta) (f0 : ℚ)
    (bx : Theta) (bf : ℚ) (h : acc.1 = some (bx, bf)) :
    stepStart acc (OptResult.ok y (some f0)) =
      (if f0 < bf then (some (y, f0), acc.2 + 1) else (some (bx, bf), acc.2 + 1)) := by
  unfold stepStart
  rw [h]

/-- Invariant of the multistart loop's fold: the success counter counts the
finite-objective starts; the incumbent is absent exactly when no start
produced a finite value; a present incumbent was produced by some start and
is minimal among all finite objective values. -/
theorem foldl_stepStart_spec (g : Theta → OptResult) (starts : List Theta) :
    (starts.foldl (fun a s => stepStart a (g s)) (none, 0)).2 =
      (starts.map g).countP isFiniteOk ∧
    ((starts.foldl (fun a s => stepStart a (g s)) (none, 0)).1 = none ↔
      ∀ s ∈ starts, isFiniteOk (g s) = false) ∧
    (∀ x f, (starts.foldl (fun a s => stepStart a (g s)) (none, 0)).1 = some (x, f) →
      OptResult.ok x (some f) ∈ starts.map g ∧
      ∀ s ∈ starts, ∀ y fv, g s = OptResult.ok y (some fv) → f ≤ fv) := by
  induction starts using List.reverseRecOn with
  | nil =>
    refine ⟨rfl, by simp, ?_⟩
    intro x f hx
    exact absurd hx (by simp)
  | append_singleton xs s ih =>
    obtain ⟨ih1, ih2, ih3⟩ := ih
    rw [List.foldl_append]
    simp only [List.foldl_cons, List.foldl_nil]
    set acc := xs.foldl (fun a s => stepStart a (g s)) (none, 0) with hacc
    have hcount_eq : ∀ b : Bool, (isFiniteOk (g s) = b) →
        ((xs ++ [s]).map g).countP isFiniteOk =
          (xs.map g).countP isFiniteOk + (if b then 1 else 0) := by
      intro b hb
      rw [List.map_append, List.countP_append, List.map_singleton]
      cases b
      · simp [List.countP, List.countP.go, hb]
      · simp [List.countP, List.countP.go, hb]
    have hmem_lift : ∀ r : OptResult, r ∈ xs.map g → r ∈ (xs ++ [s]).map g := by
      intro r hr
      rw [List.map_append]
      exact List.mem_append.mpr (Or.inl hr)
    rcases hgs : g s with _ | _ | ⟨y, fv⟩
    · rw [stepStart_raised]
      refine ⟨?_, ?_, ?_⟩
      · rw [ih1, hcount_eq false (by rw [hgs]; rfl)]
        simp
      · rw [ih2]
        constructor
        · intro hall t ht
          rcases List.mem_append.mp ht with ht | ht
          · exact hall t ht
          · rw [List.mem_singleton] at ht
            subst ht
            rw [hgs]
            rfl
        · intro hall t ht
          exact hall t (List.mem_append.mpr (Or.inl ht))
      · intro x f hx
        obtain ⟨hmem, hmin⟩ := ih3 x f hx
        refine ⟨hmem_lift _ hmem, ?_⟩
        intro t ht y2 fv2 hty
        rcases List.mem_append.mp ht with ht | ht
        · exact hmin t ht y2 fv2 hty
        · rw [List.mem_singleton] at ht
          subst ht
          rw [hgs] at hty
          exact absurd hty (by simp)
    · rw [stepStart_noFun]
      refine ⟨?_, ?_, ?_⟩
      · rw [ih1, hcount_eq false (by rw [hgs]; rfl)]
        simp
      · rw [ih2]
        constructor
        · intro hall t ht
          rcases List.mem_append.mp ht with ht | ht
          · exact hall t ht
          · rw [List.mem_singleton] at ht
            subst ht
            rw [hgs]
            rfl
        · intro hall t ht
          exact hall t (List.mem_append.mpr (Or.inl ht))
      · intro x f hx
        obtain ⟨hmem, hmin⟩ := ih3 x f hx
        refine ⟨hmem_lift _ hmem, ?_⟩
        intro t ht y2 fv2 hty
        rcases List.mem_append.mp ht with ht | ht
        · exact hmin t ht y2 fv2 hty
        · rw [List.mem_singleton] at ht
          subst ht
          rw [hgs] at hty
          exact absurd hty (by simp)
    · rcases fv with _ | f0
      · rw [stepStart_ok_nonfinite]
        refine ⟨?_, ?_, ?_⟩
        · rw [ih1, hcount_eq false (by rw [hgs]; rfl)]
          simp
        · rw [ih2]
          constructor
          · intro hall t ht
            rcases List.mem_append.mp ht with ht | ht
            · exact hall t ht
            · rw [List.mem_singleton] at ht
              subst ht
              rw [hgs]
              rfl
          · intro hall t ht
            exact hall t (List.mem_append.mpr (Or.inl ht))
        · intro x f hx
          obtain ⟨hmem, hmin⟩ := ih3 x f hx
          refine ⟨hmem_lift _ hmem, ?_⟩
          intro t ht y2 fv2 hty
          rcases List.mem_append.mp ht with ht | ht
          · exact hmin t ht y2 fv2 hty
          · rw [List.mem_singleton] at ht
            subst ht
            rw [hgs] at hty
            exact absurd hty (by simp)
      · have hsmem : OptResult.ok y (some f0) ∈ (xs ++ [s]).map g := by
          rw [List.map_append, List.map_singleton, hgs]
          exact List.mem_append.mpr (Or.inr (List.mem_singleton.mpr rfl))
        have hcnt := hcount_eq true (by rw [hgs]; rfl)
        rcases hacc1 : acc.1 with _ | ⟨bx, bf⟩
        · rw [stepStart_ok_fresh acc y f0 hacc1]
          refine ⟨?_, ?_, ?_⟩
          · rw [ih1, hcnt]
            simp
          · constructor
            · intro hx
              exact absurd hx (by simp)
            · intro hall
              have hsf := hall s (List.mem_append.mpr (Or.inr (List.mem_singleton.mpr rfl)))
              rw [hgs] at hsf
              exact absurd hsf (by simp [isFiniteOk])
          · intro x f hx
            obtain ⟨hxy, hff⟩ : y = x ∧ f0 = f := by simpa using hx
            subst hxy
            subst hff
            refine ⟨hsmem, ?_⟩
            intro t ht y2 fv2 hty
            rcases List.mem_append.mp ht with ht | ht
            · have hfin : isFiniteOk (g t) = false := (ih2.mp hacc1) t ht
              rw [hty] at hfin
              exact absurd hfin (by simp [isFiniteOk])
            · rw [List.mem_singleton] at ht
              subst ht
              rw [hgs] at hty
              have h2 : (some f0 : Option ℚ) = some fv2 :=
                (OptResult.ok.injEq _ _ _ _ ▸ hty).2
              exact le_of_eq (Option.some.inj h2)
        · rw [stepStart_ok_incumbent acc y f0 bx bf hacc1]
          by_cases hlt : f0 < bf
          · rw [if_pos hlt]
            refine ⟨?_, ?_, ?_⟩
            · rw [ih1, hcnt]
              simp
            · constructor
              · intro hx
                exact absurd hx (by simp)
              · intro hall
                have hsf := hall s (List.mem_append.mpr (Or.inr (List.mem_singleton.mpr rfl)))
                rw [hgs] at hsf
                exact absurd hsf (by simp [isFiniteOk])
            · intro x f hx
              obtain ⟨hxy, hff⟩ : y = x ∧ f0 = f := by simpa using hx
              subst hxy
              subst hff
              refine ⟨hsmem, ?_⟩
              intro t ht y2 fv2 hty
              rcases List.mem_append.mp ht with ht | ht
              · have hmin := (ih3 bx bf hacc1).2 t ht y2 fv2 hty
                linarith
              · rw [List.mem_singleton] at ht
                subst ht
                rw [hgs] at hty
                have h2 : (some f0 : Option ℚ) = some fv2 :=
                  (OptResult.ok.injEq _ _ _ _ ▸ hty).2
                exact le_of_eq (Option.some.inj h2)
          · rw [if_neg hlt]
            refine ⟨?_, ?_, ?_⟩
            · rw [ih1, hcnt]
              simp
            · constructor
              · intro hx
                exact absurd hx (by simp)
              · intro hall
                have hsf := hall s (List.mem_append.mpr (Or.inr (List.mem_singleton.mpr rfl)))
                rw [hgs] at hsf
                exact absurd hsf (by simp [isFiniteOk])
            · intro x f hx
              obtain ⟨hxy, hff⟩ : bx = x ∧ bf = f := by simpa using hx
              subst hxy
              subst hff
              obtain ⟨hmem, hmin⟩ := ih3 bx bf hacc1
              refine ⟨hmem_lift _ hmem, ?_⟩
              intro t ht y2 fv2 hty
              rcases List.mem_append.mp ht with ht | ht
              · exact hmin t ht y2 fv2 hty
              · rw [List.mem_singleton] at ht
                subst ht
                rw [hgs] at hty
                have h2 : (some f0 : Option ℚ) = some fv2 :=
                  (OptResult.ok.injEq _ _ _ _ ▸ hty).2
                rw [← Option.some.inj h2]
                exact not_lt.mp hlt
/-- C7: in the multistart loop, a raised start is skipped without aborting
(the estimator is total over arbitrary per-start outcomes); when an estimate
is returned, `starts_tried` equals `num_starts`, `starts_success` counts the
finite-objective starts and is at least 1, `rmse_v` is the minimum finite
objective value over the successful starts, and `theta` is a start result
attaining that minimum. -/
theorem estimate_multistart_spec (p : PristineCell) (measured : MeasuredOcv)
    (num_points num_starts : ℕ) (gradient_limit : ℚ) (rng_draws : ℕ → Theta)
    (optimizer : Theta → OptResult) (root_solve : Theta → FsolveOutcome)
    (e : DiagnosticsEstimate)
    (h : estimate_diagnostics_multistart p measured num_points num_starts
      gradient_limit rng_draws optimizer root_solve = some e) :
    e.starts_tried = num_starts ∧
    e.starts_success =
      ((List.range num_starts).map (fun i => optimizer (rng_draws i))).countP isFiniteOk ∧
    1 ≤ e.starts_success ∧
    (∃ i, i < num_starts ∧
      optimizer (rng_draws i) = OptResult.ok e.theta (some e.rmse_v)) ∧
    (∀ i, i < num_starts → ∀ y fv,
      optimizer (rng_draws i) = OptResult.ok y (some fv) → e.rmse_v ≤ fv) := by
  unfold estimate_diagnostics_multistart at h
  dsimp only at h
  by_cases h3 : measured.capacity.length < 3
  · rw [if_pos h3] at h
    exact absurd h (by simp)
  rw [if_neg h3] at h
  by_cases hany : (gradient_mask measured.capacity measured.ocv gradient_limit).any id
  case neg =>
    rw [if_pos hany] at h
    exact absurd h (by simp)
  rw [if_neg (not_not_intro hany)] at h
  set acc := ((List.range num_starts).map rng_draws).foldl
    (fun a s => stepStart a (optimizer s)) (none, 0) with haccdef
  obtain ⟨hc1, hc2, hc3⟩ := foldl_stepStart_spec optimizer ((List.range num_starts).map rng_draws)
  rcases hacc1 : acc.1 with _ | ⟨bx, bf⟩
  · rw [hacc1] at h
    exact absurd h (by simp)
  rw [hacc1] at h
  dsimp only at h
  rcases hcal : calculate_degraded_ocv_raw p bx.1 bx.2.1 bx.2.2 num_points
      (root_solve bx) with _ | d
  · rw [hcal] at h
    exact absurd h (by simp)
  rw [hcal] at h
  dsimp only at h
  have he : e = { theta := bx
                  rmse_v := bf
                  mask_flat := gradient_mask measured.capacity measured.ocv gradient_limit
                  predicted_ocv_at_measured := measured.capacity.map (interp_linear
                    (d.capacity_norm.map (fun c => c - d.x_cell_eoc)) d.ocv_cell)
                  starts_tried := num_starts
                  starts_success := acc.2 } := (Option.some.inj h).symm
  subst he
  rw [← haccdef] at hc1 hc3
  obtain ⟨hmem, hmin⟩ := hc3 bx bf hacc1
  refine ⟨rfl, ?_, ?_, ?_, ?_⟩
  · show acc.2 = _
    rw [hc1, List.map_map]
    rfl
  · show 1 ≤ acc.2
    rw [hc1]
    have hpos : 0 < (((List.range num_starts).map rng_draws).map optimizer).countP isFiniteOk :=
      List.countP_pos_iff.mpr ⟨OptResult.ok bx (some bf), hmem, rfl⟩
    omega
  · rcases List.mem_map.mp hmem with ⟨s, hs, hgs⟩
    rcases List.mem_map.mp hs with ⟨i, hi, hsi⟩
    exact ⟨i, List.mem_range.mp hi, by rw [hsi]; exact hgs⟩
  · intro i hi y fv hty
    exact hmin (rng_draws i)
      (List.mem_map.mpr ⟨i, List.mem_range.mpr hi, rfl⟩) y fv hty

/-- C7 witness: a one-start run on the test cell with a finite objective. -/
theorem estimate_multistart_spec_witness :
    estimate_diagnostics_multistart pristineTest
      (MeasuredOcv.mk [(0 : ℚ), 1/2, 1] [(3 : ℚ), 3, 3]) 2 1 1
      (fun _ => (1/2, 1/2, 1/2)) (fun _ => OptResult.ok (0, 0, 0) (some (1/10)))
      (fun _ => FsolveOutcome.returned 1 (some 0) (some 0)) =
      some (DiagnosticsEstimate.mk (0, 0, 0) (1/10) [true, true, false] [2, 3, 4] 1 1) ∧
    (DiagnosticsEstimate.mk ((0 : ℚ), (0 : ℚ), (0 : ℚ)) (1/10) [true, true, false]
      [(2 : ℚ), 3, 4] 1 1).starts_tried = 1 :=
  ⟨by with_unfolding_all decide,
    (estimate_multistart_spec pristineTest
      (MeasuredOcv.mk [(0 : ℚ), 1/2, 1] [(3 : ℚ), 3, 3]) 2 1 1
      (fun _ => (1/2, 1/2, 1/2)) (fun _ => OptResult.ok (0, 0, 0) (some (1/10)))
      (fun _ => FsolveOutcome.returned 1 (some 0) (some 0))
      (DiagnosticsEstimate.mk (0, 0, 0) (1/10) [true, true, false] [2, 3, 4] 1 1)
      (by with_unfolding_all decide)).1⟩

end BatteryOcv
